import Mathlib

/-!
Verification of the ReAct-agent loop from the langgraph how-to notebooks.

This development gives a shallow embedding of the inline agent-loop logic of
`docs/docs/how-tos/react-agent-from-scratch.ipynb` (the `AgentState` data
model, the `get_weather` capability, the tool registry `tools_by_name`, the
nodes `tool_node` and `call_model`, the routing predicate `should_continue`,
and the `workflow` graph wiring), together with the `get_weather` variant of
`docs/docs/how-tos/persistence_mongodb.ipynb`, and proves the specified
properties about them.

Messages are modelled as the closed tagged variant the notebooks use
(system / human / model-authored / tool-result), where only a model-authored
message carries tool-call records; the external model client is a parameter
(a function from a message sequence to a response), and the external
executor's reducer `add_messages` is modelled as list concatenation of the
returned deltas.  Python exceptions (`KeyError` on an unknown registry name,
argument-validation failures, `IndexError` on an empty message list) are
modelled with `Except`.
-/

namespace ReactAgentLoop

/-- A tool call record as emitted by the model client: call identifier,
tool name, and argument mapping (modelled as an association list of
string keys and string values, since the only registered capability takes
a single string argument). -/
structure ToolCall where
  id : String
  name : String
  args : List (String × String)
deriving Repr, DecidableEq

/-- The tagged message variant used by the notebook: system instruction,
human-authored, model-authored (optionally carrying tool calls), and
tool-result (carrying the answered call's identifier and tool name). -/
inductive Message where
  | system (content : String)
  | human (content : String)
  | ai (content : String) (tool_calls : List ToolCall)
  | tool (content : String) (name : String) (tool_call_id : String)
deriving Repr, DecidableEq

/-- The `.tool_calls` attribute read by `tool_node` and `should_continue`:
only a model-authored message carries tool-call records. -/
def Message.tool_calls : Message → List ToolCall
  | .ai _ tcs => tcs
  | _ => []

/-- Whether a message is model-authored (an `AIMessage`). -/
def Message.isModelAuthored : Message → Bool
  | .ai _ _ => true
  | _ => false

/-- The state of the agent: an ordered sequence of messages
(`AgentState` in the notebook). -/
structure AgentState where
  messages : List Message
deriving Repr, DecidableEq

/-- The `add_messages` reducer applied by the external executor: the delta
returned by a node is concatenated onto the stored message sequence. -/
def appendDelta (s d : AgentState) : AgentState :=
  ⟨s.messages ++ d.messages⟩

/-- Whether `pat` is a prefix of `l`. -/
def listStartsWith : List Char → List Char → Bool
  | _, [] => true
  | [], _ :: _ => false
  | a :: as, b :: bs => a = b && listStartsWith as bs

/-- Whether `pat` occurs as a contiguous sublist of `l`. -/
def listContainsSub : List Char → List Char → Bool
  | [], pat => pat.isEmpty
  | a :: rest, pat => listStartsWith (a :: rest) pat || listContainsSub rest pat

/-- Python substring containment `pat in s`. -/
def strContains (s pat : String) : Bool :=
  listContainsSub s.data pat.data

/-- Python `location.lower()`, mapping each character to lowercase. -/
def strToLower (s : String) : String :=
  ⟨s.data.map Char.toLower⟩

/-- Capability `get_weather` of `react-agent-from-scratch.ipynb`: a placeholder weather
capability.  If the lower-cased location contains one of the registered city
strings it reports sunshine, otherwise it falls through to the else-branch
and returns a generic not-sure string; it never fails. -/
def get_weather (location : String) : String :=
  if ["sf", "san francisco"].any (fun city => strContains (strToLower location) city) then
    "It\x27s sunny in San Francisco, but you better look out if you\x27re a Gemini 😈."
  else
    "I am not sure what the weather is in " ++ location

/-- Capability `get_weather` of `persistence_mongodb.ipynb`: answers for "nyc" and "sf"
and raises `AssertionError` on any other city. -/
def get_weather_mongodb (city : String) : Except String String :=
  if city = "nyc" then .ok "It might be cloudy in nyc"
  else if city = "sf" then .ok "It\x27s always sunny in sf"
  else .error "AssertionError: Unknown city"

/-- An invocable capability of the tool registry: a name plus an `invoke`
taking the call's argument mapping; invocation may fail (argument
validation). -/
structure Tool where
  name : String
  invoke : List (String × String) → Except String String

/-- The `@tool`-decorated `get_weather` capability: validates that the
argument mapping supplies `location` and applies `get_weather` to it. -/
def get_weather_tool : Tool where
  name := "get_weather"
  invoke := fun args =>
    match args.lookup "location" with
    | some location => .ok (get_weather location)
    | none => .error "ValidationError: missing argument location"

/-- Registration `tools = [get_weather]`. -/
def tools : List Tool := [get_weather_tool]

/-- Registry `tools_by_name = {tool.name: tool for tool in tools}`. -/
def tools_by_name : List (String × Tool) :=
  tools.map (fun t => (t.name, t))

/-- Hexadecimal digit (lowercase), as produced by Python's json encoder. -/
def hexDigit (n : Nat) : Char :=
  if n < 10 then Char.ofNat (48 + n) else Char.ofNat (87 + n)

/-- A `\uXXXX` escape sequence of four lowercase hex digits. -/
def uEscape (n : Nat) : List Char :=
  ['\\', 'u', hexDigit (n / 4096 % 16), hexDigit (n / 256 % 16),
   hexDigit (n / 16 % 16), hexDigit (n % 16)]

/-- Escaping of one character by `json.dumps` (default `ensure_ascii=True`):
quote, backslash and the short control escapes specially; every other
character outside printable ASCII as `\uXXXX` (a surrogate pair beyond the
basic multilingual plane); printable ASCII verbatim. -/
def jsonEscapeChar (c : Char) : List Char :=
  if c = '"' then ['\\', '"']
  else if c = '\\' then ['\\', '\\']
  else if c = '\n' then ['\\', 'n']
  else if c = '\r' then ['\\', 'r']
  else if c = '\t' then ['\\', 't']
  else if c.toNat = 8 then ['\\', 'b']
  else if c.toNat = 12 then ['\\', 'f']
  else if c.toNat < 32 ∨ c.toNat > 126 then
    if c.toNat ≤ 65535 then uEscape c.toNat
    else uEscape (55296 + (c.toNat - 65536) / 1024) ++
         uEscape (56320 + (c.toNat - 65536) % 1024)
  else [c]

/-- Escaping of a character sequence by `json.dumps`. -/
def jsonEscapeList : List Char → List Char
  | [] => []
  | c :: cs => jsonEscapeChar c ++ jsonEscapeList cs

/-- Serialization `json.dumps` applied to a string value: the escaped text wrapped in
double quotes. -/
def jsonDumpsString (s : String) : String :=
  ⟨'"' :: (jsonEscapeList s.data ++ ['"'])⟩

/-- The per-call loop body of `tool_node`: look each call's name up in
`tools_by_name` (an unknown name raises `KeyError`), invoke the capability
on the call's argument mapping, and build one `ToolMessage` per call, in
call order, whose content is the json serialization of the result.  An
exception anywhere aborts the whole step with no partial output. -/
def runToolCalls : List ToolCall → Except String (List Message)
  | [] => .ok []
  | tc :: rest =>
    match tools_by_name.lookup tc.name with
    | none => .error ("KeyError: " ++ tc.name)
    | some t =>
      match t.invoke tc.args with
      | .error e => .error e
      | .ok result =>
        match runToolCalls rest with
        | .error e => .error e
        | .ok msgs => .ok (Message.tool (jsonDumpsString result) tc.name tc.id :: msgs)

/-- Node `tool_node`: dispatches the tool calls of the final message of the state
(`state["messages"][-1]`, an `IndexError` when the state is empty) and
returns the resulting delta. -/
def tool_node (state : AgentState) : Except String AgentState :=
  match state.messages.getLast? with
  | none => .error "IndexError: list index out of range"
  | some last => (runToolCalls last.tool_calls).map (fun outputs => ⟨outputs⟩)

/-- The fixed system instruction message of `call_model`. -/
def system_prompt : Message :=
  Message.system "You are a helpful AI assistant, please respond to the users query to the best of your ability!"

/-- The external model client: from an ordered message sequence to a
response (content and tool calls of one model-authored message). -/
def ModelClient : Type := List Message → String × List ToolCall

/-- Node `call_model`: prepends the fixed system instruction to the stored
message sequence, passes the combined sequence to the model client, and
returns a delta holding exactly the one response message. -/
def call_model (client : ModelClient) (state : AgentState) : AgentState :=
  let response := client (system_prompt :: state.messages)
  ⟨[Message.ai response.1 response.2]⟩

/-- Router `should_continue`: inspects the final message (`IndexError`, modelled as
`none`, on an empty state); returns "end" when it carries no tool calls and
"continue" otherwise. -/
def should_continue (state : AgentState) : Option String :=
  match state.messages.getLast? with
  | none => none
  | some last => if last.tool_calls.isEmpty then some "end" else some "continue"

/-- The special `END` node marking that the graph should finish. -/
def END : String := "__end__"

/-- A state graph under construction: node names, entry point, conditional
branches (source, router, label-to-target mapping) and plain edges. -/
structure StateGraph where
  nodes : List String
  entry : Option String
  branches : List (String × (AgentState → Option String) × List (String × String))
  edges : List (String × String)

/-- Builder call `StateGraph(AgentState)`. -/
def StateGraph.empty : StateGraph :=
  ⟨[], none, [], []⟩

/-- Builder call `workflow.add_node(name, fn)` (the node functions are kept separately in
this embedding; the graph records the wiring). -/
def StateGraph.add_node (g : StateGraph) (name : String) : StateGraph :=
  { g with nodes := g.nodes ++ [name] }

/-- Builder call `workflow.set_entry_point(name)`. -/
def StateGraph.set_entry_point (g : StateGraph) (name : String) : StateGraph :=
  { g with entry := some name }

/-- Builder call `workflow.add_conditional_edges(source, router, mapping)`. -/
def StateGraph.add_conditional_edges (g : StateGraph) (source : String)
    (router : AgentState → Option String)
    (mapping : List (String × String)) : StateGraph :=
  { g with branches := g.branches ++ [(source, router, mapping)] }

/-- Builder call `workflow.add_edge(a, b)`. -/
def StateGraph.add_edge (g : StateGraph) (a b : String) : StateGraph :=
  { g with edges := g.edges ++ [(a, b)] }

/-- The graph built in the notebook: nodes "agent" and "tools", entry point
"agent", conditional edges from "agent" routed by `should_continue` through
the mapping `continue ↦ tools, end ↦ END`, and a plain edge from "tools"
back to "agent". -/
def workflow : StateGraph :=
  ((((StateGraph.empty.add_node "agent").add_node "tools").set_entry_point
      "agent").add_conditional_edges "agent" should_continue
      [("continue", "tools"), ("end", END)]).add_edge "tools" "agent"

/-- The successor node chosen by the executor after running `node` and
obtaining the updated state: a conditional branch routes through its
mapping, otherwise the first plain outgoing edge is taken. -/
def StateGraph.successor (g : StateGraph) (node : String) (state : AgentState) :
    Option String :=
  match g.branches.find? (fun b => b.1 = node) with
  | some (_, router, mapping) => (router state).bind (fun label => mapping.lookup label)
  | none => (g.edges.find? (fun e => e.1 = node)).map (fun e => e.2)

instance {ε α : Type} [DecidableEq ε] [DecidableEq α] : DecidableEq (Except ε α)
  | .ok a, .ok b =>
    if h : a = b then .isTrue (by rw [h]) else .isFalse (by simp [h])
  | .ok _, .error _ => .isFalse (by simp)
  | .error _, .ok _ => .isFalse (by simp)
  | .error e, .error f =>
    if h : e = f then .isTrue (by rw [h]) else .isFalse (by simp [h])

/-- Whether every tool-result message of the sequence carries a call
identifier drawn from the tool calls of the nearest preceding
model-authored message; `ctx` is the set of identifiers emitted by the most
recent model-authored message seen so far (empty at the start of the
history). -/
def toolCallIdsOk : List String → List Message → Bool
  | _, [] => true
  | _, Message.ai _ tcs :: rest => toolCallIdsOk (tcs.map ToolCall.id) rest
  | ctx, Message.tool _ _ cid :: rest => ctx.contains cid && toolCallIdsOk ctx rest
  | ctx, _ :: rest => toolCallIdsOk ctx rest

/-- The identifier context left after traversing a message sequence: the
call identifiers of its last model-authored message, or the incoming
context when it has none. -/
def ctxAfter : List String → List Message → List String
  | ctx, [] => ctx
  | _, Message.ai _ tcs :: rest => ctxAfter (tcs.map ToolCall.id) rest
  | ctx, _ :: rest => ctxAfter ctx rest

/-- The configurations `(pending node, state)` reachable by the compiled
loop run on a state seeded with one human-authored message: the entry point
runs "agent" first; after a node runs, its output delta is concatenated
onto the state by the reducer and the graph's successor edge (conditional
for "agent", plain for "tools") picks the next node. -/
inductive Reachable (client : ModelClient) (query : String) :
    String × AgentState → Prop where
  | init : Reachable client query ("agent", ⟨[Message.human query]⟩)
  | agent_step (s : AgentState) (next : String) :
      Reachable client query ("agent", s) →
      workflow.successor "agent" (appendDelta s (call_model client s)) = some next →
      Reachable client query (next, appendDelta s (call_model client s))
  | tools_step (s out : AgentState) (next : String) :
      Reachable client query ("tools", s) →
      tool_node s = Except.ok out →
      workflow.successor "tools" (appendDelta s out) = some next →
      Reachable client query (next, appendDelta s out)

/-! ## Helper lemmas -/

theorem tool_calls_ne_nil {m : Message} (h : m.tool_calls ≠ []) :
    ∃ c tcs, m = Message.ai c tcs ∧ tcs ≠ [] := by
  cases m with
  | ai c tcs => exact ⟨c, tcs, rfl, h⟩
  | system c => simp [Message.tool_calls] at h
  | human c => simp [Message.tool_calls] at h
  | tool c n i => simp [Message.tool_calls] at h

theorem should_continue_none {s : AgentState} (h : s.messages.getLast? = none) :
    should_continue s = none := by
  unfold should_continue; rw [h]

theorem should_continue_some {s : AgentState} {m : Message}
    (h : s.messages.getLast? = some m) :
    should_continue s =
      if m.tool_calls.isEmpty then some "end" else some "continue" := by
  unfold should_continue; rw [h]

theorem should_continue_eq_continue {s : AgentState} :
    should_continue s = some "continue" ↔
      ∃ m, s.messages.getLast? = some m ∧ m.tool_calls ≠ [] := by
  cases h : s.messages.getLast? with
  | none => simp [should_continue_none h]
  | some m =>
    rw [should_continue_some h]
    by_cases he : m.tool_calls.isEmpty
    · rw [if_pos he]
      rw [List.isEmpty_iff] at he
      constructor
      · intro hc; exact absurd (Option.some.inj hc) (by decide)
      · rintro ⟨m', hm', hne⟩
        obtain rfl := Option.some.inj hm'
        exact absurd he hne
    · rw [if_neg he]
      rw [List.isEmpty_iff] at he
      exact ⟨fun _ => ⟨m, rfl, he⟩, fun _ => rfl⟩

theorem should_continue_eq_end {s : AgentState} :
    should_continue s = some "end" ↔
      ∃ m, s.messages.getLast? = some m ∧ m.tool_calls = [] := by
  cases h : s.messages.getLast? with
  | none => simp [should_continue_none h]
  | some m =>
    rw [should_continue_some h]
    by_cases he : m.tool_calls.isEmpty
    · rw [if_pos he]
      rw [List.isEmpty_iff] at he
      exact ⟨fun _ => ⟨m, rfl, he⟩, fun _ => rfl⟩
    · rw [if_neg he]
      rw [List.isEmpty_iff] at he
      constructor
      · intro hc; exact absurd (Option.some.inj hc) (by decide)
      · rintro ⟨m', hm', hnil⟩
        obtain rfl := Option.some.inj hm'
        exact absurd hnil he

theorem runToolCalls_ok_mem {tcs : List ToolCall} {out : List Message}
    (h : runToolCalls tcs = .ok out) :
    ∀ m ∈ out, ∃ tc, tc ∈ tcs ∧ ∃ t result,
      tools_by_name.lookup tc.name = some t ∧ t.invoke tc.args = .ok result ∧
      m = Message.tool (jsonDumpsString result) tc.name tc.id := by
  induction tcs generalizing out with
  | nil =>
    simp only [runToolCalls, Except.ok.injEq] at h
    subst h; simp
  | cons tc rest ih =>
    cases hl : tools_by_name.lookup tc.name with
    | none => simp [runToolCalls, hl] at h
    | some t =>
      cases hi : t.invoke tc.args with
      | error e => simp [runToolCalls, hl, hi] at h
      | ok result =>
        cases hr : runToolCalls rest with
        | error e => simp [runToolCalls, hl, hi, hr] at h
        | ok msgs =>
          simp only [runToolCalls, hl, hi, hr, Except.ok.injEq] at h
          subst h
          intro m hm
          rcases List.mem_cons.mp hm with rfl | hm'
          · exact ⟨tc, List.mem_cons_self .., t, result, hl, hi, rfl⟩
          · obtain ⟨tc', htc', hrest⟩ := ih hr m hm'
            exact ⟨tc', List.mem_cons_of_mem _ htc', hrest⟩

theorem runToolCalls_ok_all {tcs : List ToolCall}
    (h : ∀ tc ∈ tcs, ∃ t, tools_by_name.lookup tc.name = some t ∧
      (t.invoke tc.args).isOk = true) :
    ∃ results : List String, results.length = tcs.length ∧
      runToolCalls tcs = .ok (List.zipWith
        (fun tc r => Message.tool (jsonDumpsString r) tc.name tc.id) tcs results) := by
  induction tcs with
  | nil => exact ⟨[], rfl, rfl⟩
  | cons tc rest ih =>
    obtain ⟨t, hl, hok⟩ := h tc (List.mem_cons_self ..)
    cases hi : t.invoke tc.args with
    | error e => rw [hi] at hok; simp [Except.isOk, Except.toBool] at hok
    | ok result =>
      obtain ⟨results, hlen, hrun⟩ := ih (fun tc' h' => h tc' (List.mem_cons_of_mem _ h'))
      refine ⟨result :: results, by simp [hlen], ?_⟩
      simp only [runToolCalls, hl, hi, hrun, List.zipWith]

theorem runToolCalls_error_of_unknown {tcs : List ToolCall}
    (h : ∃ tc ∈ tcs, tools_by_name.lookup tc.name = none) :
    ∃ e, runToolCalls tcs = .error e := by
  induction tcs with
  | nil => simp at h
  | cons tc rest ih =>
    by_cases hl : tools_by_name.lookup tc.name = none
    · exact ⟨"KeyError: " ++ tc.name, by simp only [runToolCalls, hl]⟩
    · obtain ⟨t, ht⟩ := Option.ne_none_iff_exists'.mp hl
      obtain ⟨tc', htc', hnone⟩ := h
      rcases List.mem_cons.mp htc' with rfl | hmem
      · exact absurd hnone hl
      · cases hi : t.invoke tc.args with
        | error e => exact ⟨e, by simp only [runToolCalls, ht, hi]⟩
        | ok result =>
          obtain ⟨e, he⟩ := ih ⟨tc', hmem, hnone⟩
          exact ⟨e, by simp only [runToolCalls, ht, hi, he]⟩

theorem jsonEscapeChar_length (c : Char) : 1 ≤ (jsonEscapeChar c).length := by
  unfold jsonEscapeChar
  split
  · simp
  · split
    · simp
    · split
      · simp
      · split
        · simp
        · split
          · simp
          · split
            · simp
            · split
              · simp
              · split
                · split <;> simp [uEscape]
                · simp

theorem jsonEscapeList_length (l : List Char) : l.length ≤ (jsonEscapeList l).length := by
  induction l with
  | nil => simp [jsonEscapeList]
  | cons c cs ih =>
    simp only [jsonEscapeList, List.length_append, List.length_cons]
    have := jsonEscapeChar_length c
    omega

theorem jsonDumpsString_length (s : String) : s.length < (jsonDumpsString s).length := by
  have h := jsonEscapeList_length s.data
  simp only [jsonDumpsString, String.length, List.length_cons, List.length_append]
  simp only [String.length] at h ⊢
  omega

theorem jsonDumpsString_ne (s : String) : jsonDumpsString s ≠ s := by
  intro h
  have := jsonDumpsString_length s
  rw [h] at this
  exact lt_irrefl _ this

theorem jsonDumpsString_wrapped (s : String) :
    jsonDumpsString s = "\"" ++ String.mk (jsonEscapeList s.data) ++ "\"" := rfl

theorem toolCallIdsOk_append (xs ys : List Message) (ctx : List String) :
    toolCallIdsOk ctx (xs ++ ys) =
      (toolCallIdsOk ctx xs && toolCallIdsOk (ctxAfter ctx xs) ys) := by
  induction xs generalizing ctx with
  | nil => simp [toolCallIdsOk, ctxAfter]
  | cons m rest ih =>
    cases m with
    | system c => simp only [List.cons_append, toolCallIdsOk, ctxAfter, List.append_eq, ih]
    | human c => simp only [List.cons_append, toolCallIdsOk, ctxAfter, List.append_eq, ih]
    | ai c tcs => simp only [List.cons_append, toolCallIdsOk, ctxAfter, List.append_eq, ih]
    | tool c n cid =>
      simp only [List.cons_append, toolCallIdsOk, ctxAfter, List.append_eq, ih, Bool.and_assoc]

theorem ctxAfter_getLast_ai {msgs : List Message} {c : String} {tcs : List ToolCall}
    (h : msgs.getLast? = some (Message.ai c tcs)) (ctx : List String) :
    ctxAfter ctx msgs = tcs.map ToolCall.id := by
  induction msgs generalizing ctx with
  | nil => simp at h
  | cons m rest ih =>
    cases rest with
    | nil =>
      simp only [List.getLast?_singleton, Option.some.injEq] at h
      subst h; rfl
    | cons m2 rest2 =>
      have h' : (m2 :: rest2).getLast? = some (Message.ai c tcs) := by
        rw [← List.getLast?_cons_cons]; exact h
      cases m <;> exact ih h' _

theorem toolCallIdsOk_of_all_tool {out : List Message} {ctx : List String}
    (h : ∀ m ∈ out, ∃ content nm cid,
      m = Message.tool content nm cid ∧ ctx.contains cid = true) :
    toolCallIdsOk ctx out = true := by
  induction out with
  | nil => rfl
  | cons m rest ih =>
    obtain ⟨content, nm, cid, rfl, hc⟩ := h _ (List.mem_cons_self ..)
    simp only [toolCallIdsOk, hc, Bool.true_and]
    exact ih (fun m' h' => h m' (List.mem_cons_of_mem _ h'))

theorem successor_agent (s : AgentState) :
    workflow.successor "agent" s =
      (should_continue s).bind
        (fun label => List.lookup label [("continue", "tools"), ("end", END)]) := rfl

theorem successor_tools (s : AgentState) :
    workflow.successor "tools" s = some "agent" := rfl

theorem lookup_routing (l : String) :
    List.lookup l [("continue", "tools"), ("end", END)] =
      if l = "continue" then some "tools" else if l = "end" then some END else none := by
  by_cases h1 : l = "continue"
  · simp [List.lookup, h1]
  · have hb1 : (l == "continue") = false := beq_eq_false_iff_ne.mpr h1
    by_cases h2 : l = "end"
    · simp [List.lookup, hb1, h1, h2]
    · have hb2 : (l == "end") = false := beq_eq_false_iff_ne.mpr h2
      simp [List.lookup, hb1, hb2, h1, h2]

theorem tool_node_ok_runToolCalls {s : AgentState} {m : Message} {out : AgentState}
    (hlast : s.messages.getLast? = some m) (h : tool_node s = .ok out) :
    runToolCalls m.tool_calls = .ok out.messages := by
  unfold tool_node at h
  rw [hlast] at h
  change Except.map (fun outputs => AgentState.mk outputs)
    (runToolCalls m.tool_calls) = Except.ok out at h
  cases hrc : runToolCalls m.tool_calls with
  | error e => rw [hrc] at h; simp [Except.map] at h
  | ok msgs =>
    rw [hrc] at h
    simp only [Except.map, Except.ok.injEq] at h
    rw [← h]

theorem reachable_invariant {client : ModelClient} {q : String}
    {cfg : String × AgentState} (h : Reachable client q cfg) :
    toolCallIdsOk [] cfg.2.messages = true ∧
      (cfg.1 = "tools" → ∃ c tcs,
        cfg.2.messages.getLast? = some (Message.ai c tcs) ∧ tcs ≠ []) := by
  induction h with
  | init =>
    refine ⟨rfl, fun h' => ?_⟩
    simp at h'
  | agent_step s next hr hsucc ih =>
    constructor
    · show toolCallIdsOk [] (s.messages ++ (call_model client s).messages) = true
      rw [toolCallIdsOk_append]
      rw [ih.1]
      simp [call_model, toolCallIdsOk]
    · intro hnext
      subst hnext
      rw [successor_agent] at hsucc
      cases hsc : should_continue (appendDelta s (call_model client s)) with
      | none => rw [hsc] at hsucc; simp at hsucc
      | some l =>
        rw [hsc] at hsucc
        rw [Option.some_bind, lookup_routing] at hsucc
        by_cases h1 : l = "continue"
        · subst h1
          obtain ⟨m, hm, hne⟩ := should_continue_eq_continue.mp hsc
          obtain ⟨c, tcs, rfl, hne'⟩ := tool_calls_ne_nil hne
          exact ⟨c, tcs, hm, hne'⟩
        · by_cases h2 : l = "end"
          · subst h2
            rw [if_neg (by decide), if_pos rfl] at hsucc
            exact absurd (Option.some.inj hsucc) (by decide)
          · rw [if_neg h1, if_neg h2] at hsucc
            simp at hsucc
  | tools_step s out next hr htn hsucc ih =>
    obtain ⟨c, tcs, hlast, hne⟩ := ih.2 rfl
    constructor
    · show toolCallIdsOk [] (s.messages ++ out.messages) = true
      rw [toolCallIdsOk_append, ih.1, Bool.true_and,
        ctxAfter_getLast_ai hlast]
      have hrun : runToolCalls tcs = .ok out.messages := by
        have := tool_node_ok_runToolCalls hlast htn
        simpa [Message.tool_calls] using this
      apply toolCallIdsOk_of_all_tool
      intro m hm
      obtain ⟨tc, htc, t, result, _, _, rfl⟩ := runToolCalls_ok_mem hrun m hm
      refine ⟨jsonDumpsString result, tc.name, tc.id, rfl, ?_⟩
      exact List.elem_iff.mpr (List.mem_map_of_mem _ htc)
    · intro hnext
      rw [successor_tools] at hsucc
      obtain rfl := Option.some.inj hsucc
      simp at hnext

theorem tool_node_eq {s : AgentState} {m : Message}
    (hlast : s.messages.getLast? = some m) :
    tool_node s =
      Except.map (fun outputs => AgentState.mk outputs) (runToolCalls m.tool_calls) := by
  unfold tool_node
  rw [hlast]

/-! ## Claim theorems -/

/-- C1: for every Conversation State with a final message, `should_continue`
returns "continue" iff that final message is model-authored and carries one
or more tool calls, and returns "end" otherwise. -/
theorem should_continue_continue_iff_model_tool_calls
    (s : AgentState) (m : Message) (h : s.messages.getLast? = some m) :
    (should_continue s = some "continue" ↔
      (m.isModelAuthored = true ∧ m.tool_calls ≠ [])) ∧
    (should_continue s = some "end" ↔
      ¬ (m.isModelAuthored = true ∧ m.tool_calls ≠ [])) := by
  constructor
  · rw [should_continue_eq_continue]
    constructor
    · rintro ⟨m', hm', hne⟩
      rw [h] at hm'
      obtain rfl := Option.some.inj hm'
      obtain ⟨c, tcs, rfl, hne'⟩ := tool_calls_ne_nil hne
      exact ⟨rfl, hne⟩
    · rintro ⟨hma, hne⟩
      exact ⟨m, h, hne⟩
  · rw [should_continue_eq_end]
    constructor
    · rintro ⟨m', hm', hnil⟩ ⟨hma, hne⟩
      rw [h] at hm'
      obtain rfl := Option.some.inj hm'
      exact hne hnil
    · intro hn
      refine ⟨m, h, ?_⟩
      by_cases hnil : m.tool_calls = []
      · exact hnil
      · obtain ⟨c, tcs, rfl, hne'⟩ := tool_calls_ne_nil hnil
        exact absurd ⟨rfl, hnil⟩ hn

/-- Witness for C1 at a concrete state ending in a model-authored message
with one tool call. -/
theorem should_continue_continue_iff_model_tool_calls_witness :
    (AgentState.mk [Message.ai ""
        [⟨"call_1", "get_weather", [("location", "sf")]⟩]]).messages.getLast? =
      some (Message.ai "" [⟨"call_1", "get_weather", [("location", "sf")]⟩]) ∧
    should_continue ⟨[Message.ai ""
        [⟨"call_1", "get_weather", [("location", "sf")]⟩]]⟩ = some "continue" :=
  ⟨rfl, (should_continue_continue_iff_model_tool_calls
    ⟨[Message.ai "" [⟨"call_1", "get_weather", [("location", "sf")]⟩]]⟩
    (Message.ai "" [⟨"call_1", "get_weather", [("location", "sf")]⟩])
    rfl).1.mpr (by decide)⟩

/-- C2 counterexample: on a state whose final message is model-authored and
carries one tool call naming an unregistered tool, `tool_node` raises a
`KeyError` instead of returning a one-message delta, so the claim as stated
(over every state with a model-authored final message) is false. -/
theorem tool_node_unknown_tool_cex :
    tool_node ⟨[Message.ai "" [⟨"call_1", "mystery_tool", []⟩]]⟩ =
      Except.error "KeyError: mystery_tool" ∧
    (tool_node ⟨[Message.ai "" [⟨"call_1", "mystery_tool", []⟩]]⟩).isOk = false :=
  ⟨rfl, rfl⟩

/-- C2 (amended): for every state whose final message is model-authored and
carries tool calls `c1..cn`, each naming a registered tool whose invocation
succeeds on the call's arguments, `tool_node` returns a delta of exactly n
tool-result messages, in call order, the i-th carrying the call identifier
and tool name of `ci`; the existing messages are untouched (the updated
state is the old sequence with the delta appended after it). -/
theorem tool_node_dispatch_ordered (s : AgentState) (c : String) (tcs : List ToolCall)
    (hlast : s.messages.getLast? = some (Message.ai c tcs))
    (hreg : ∀ tc ∈ tcs, ∃ t, tools_by_name.lookup tc.name = some t ∧
      (t.invoke tc.args).isOk = true) :
    ∃ out : AgentState, tool_node s = .ok out ∧
      out.messages.length = tcs.length ∧
      (∀ (i : Nat) (h1 : i < out.messages.length) (h2 : i < tcs.length),
        ∃ content, out.messages.get ⟨i, h1⟩ =
          Message.tool content (tcs.get ⟨i, h2⟩).name (tcs.get ⟨i, h2⟩).id) ∧
      (appendDelta s out).messages = s.messages ++ out.messages := by
  obtain ⟨results, hlen, hrun⟩ := runToolCalls_ok_all hreg
  refine ⟨⟨List.zipWith (fun tc r => Message.tool (jsonDumpsString r) tc.name tc.id)
    tcs results⟩, ?_, ?_, ?_, rfl⟩
  · rw [tool_node_eq hlast]
    simp only [Message.tool_calls]
    rw [hrun]
    rfl
  · simp [hlen]
  · intro i h1 h2
    have hr : i < results.length := by
      rw [hlen]; exact h2
    refine ⟨jsonDumpsString (results.get ⟨i, hr⟩), ?_⟩
    simp [List.get_eq_getElem, List.getElem_zipWith]

/-- Witness for C2 (amended) at a concrete state carrying two calls to the
registered weather tool. -/
theorem tool_node_dispatch_ordered_witness :
    ∃ out : AgentState,
      tool_node ⟨[Message.human "what is the weather in sf",
        Message.ai "" [⟨"call_1", "get_weather", [("location", "sf")]⟩,
          ⟨"call_2", "get_weather", [("location", "nyc")]⟩]]⟩ = .ok out ∧
      out.messages.length = 2 := by
  have hreg : ∀ tc ∈ ([⟨"call_1", "get_weather", [("location", "sf")]⟩,
      ⟨"call_2", "get_weather", [("location", "nyc")]⟩] : List ToolCall),
      ∃ t, tools_by_name.lookup tc.name = some t ∧
        (t.invoke tc.args).isOk = true := by
    intro tc htc
    simp only [List.mem_cons, List.not_mem_nil, or_false] at htc
    rcases htc with rfl | rfl
    · exact ⟨get_weather_tool, rfl, rfl⟩
    · exact ⟨get_weather_tool, rfl, rfl⟩
  obtain ⟨out, h1, h2, _, _⟩ := tool_node_dispatch_ordered
    ⟨[Message.human "what is the weather in sf",
      Message.ai "" [⟨"call_1", "get_weather", [("location", "sf")]⟩,
        ⟨"call_2", "get_weather", [("location", "nyc")]⟩]]⟩
    "" [⟨"call_1", "get_weather", [("location", "sf")]⟩,
        ⟨"call_2", "get_weather", [("location", "nyc")]⟩] rfl hreg
  exact ⟨out, h1, h2⟩

/-- C3: if the final message carries a tool call whose name has no entry in
the tool registry, `tool_node` propagates an error and returns no delta —
in particular no partial results from earlier calls in the list. -/
theorem tool_node_unknown_tool_propagates (s : AgentState) (m : Message)
    (hlast : s.messages.getLast? = some m)
    (hunk : ∃ tc ∈ m.tool_calls, tools_by_name.lookup tc.name = none) :
    (∃ e, tool_node s = .error e) ∧ (tool_node s).isOk = false := by
  obtain ⟨e, he⟩ := runToolCalls_error_of_unknown hunk
  have herr : tool_node s = .error e := by
    rw [tool_node_eq hlast, he]
    rfl
  exact ⟨⟨e, herr⟩, by rw [herr]; rfl⟩

/-- Witness for C3: a known call followed by an unknown one still yields an
error and no partial delta. -/
theorem tool_node_unknown_tool_propagates_witness :
    (∃ e, tool_node ⟨[Message.ai ""
      [⟨"call_1", "get_weather", [("location", "sf")]⟩,
       ⟨"call_2", "magic_tool", []⟩]]⟩ = .error e) ∧
    (tool_node ⟨[Message.ai ""
      [⟨"call_1", "get_weather", [("location", "sf")]⟩,
       ⟨"call_2", "magic_tool", []⟩]]⟩).isOk = false :=
  tool_node_unknown_tool_propagates _ _ rfl
    ⟨⟨"call_2", "magic_tool", []⟩, by simp [Message.tool_calls], rfl⟩

/-- C4: `call_model` passes the fixed system instruction prepended to the
stored sequence to the model client, returns a delta of exactly one
model-authored message, and the system instruction is not persisted: the
delta contains no system message and the reducer appends the delta after
the untouched stored sequence. -/
theorem call_model_delta_spec (client : ModelClient) (s : AgentState) :
    call_model client s =
      ⟨[Message.ai (client (system_prompt :: s.messages)).1
        (client (system_prompt :: s.messages)).2]⟩ ∧
    (call_model client s).messages.length = 1 ∧
    (∀ m ∈ (call_model client s).messages, m.isModelAuthored = true) ∧
    (∀ m ∈ (call_model client s).messages, m ≠ system_prompt) ∧
    (appendDelta s (call_model client s)).messages =
      s.messages ++ (call_model client s).messages := by
  refine ⟨rfl, rfl, ?_, ?_, rfl⟩
  · intro m hm
    simp only [call_model, List.mem_singleton] at hm
    subst hm
    rfl
  · intro m hm
    simp only [call_model, List.mem_singleton] at hm
    subst hm
    simp [system_prompt]

/-- Witness for C4 with a concrete client and state. -/
theorem call_model_delta_spec_witness :
    call_model (fun _ => ("hello!", [])) ⟨[Message.human "hi"]⟩ =
      ⟨[Message.ai "hello!" []]⟩ :=
  (call_model_delta_spec (fun _ => ("hello!", [])) ⟨[Message.human "hi"]⟩).1

/-- C5: for every location whose lower-cased text contains no registered
city substring, `get_weather` falls through to its else-branch and returns
the generic not-sure string instead of raising, so `tool_node` completes
normally on any state dispatching such calls. -/
theorem get_weather_unknown_city_no_raise (location : String)
    (h : ∀ city ∈ ["sf", "san francisco"],
      strContains (strToLower location) city = false) :
    get_weather location = "I am not sure what the weather is in " ++ location ∧
    (∀ (s : AgentState) (c : String) (tcs : List ToolCall),
      s.messages.getLast? = some (Message.ai c tcs) →
      (∀ tc ∈ tcs, tc.name = "get_weather" ∧
        tc.args.lookup "location" = some location) →
      (tool_node s).isOk = true) := by
  constructor
  · have hc : (["sf", "san francisco"].any
        fun city => strContains (strToLower location) city) = false := by
      rw [List.any_eq_false]
      intro x hx
      simp [h x hx]
    simp [get_weather, hc]
  · intro s c tcs hlast hcalls
    have hreg : ∀ tc ∈ tcs, ∃ t, tools_by_name.lookup tc.name = some t ∧
        (t.invoke tc.args).isOk = true := by
      intro tc htc
      obtain ⟨hname, hargs⟩ := hcalls tc htc
      refine ⟨get_weather_tool, by rw [hname]; rfl, ?_⟩
      have hi : get_weather_tool.invoke tc.args = Except.ok (get_weather location) := by
        show (match tc.args.lookup "location" with
          | some l => Except.ok (get_weather l)
          | none =>
            Except.error "ValidationError: missing argument location") =
          Except.ok (get_weather location)
        rw [hargs]
      rw [hi]
      rfl
    obtain ⟨results, hlen, hrun⟩ := runToolCalls_ok_all hreg
    have hok : tool_node s = .ok ⟨List.zipWith
        (fun tc r => Message.tool (jsonDumpsString r) tc.name tc.id) tcs results⟩ := by
      rw [tool_node_eq hlast]
      simp only [Message.tool_calls]
      rw [hrun]
      rfl
    rw [hok]
    rfl

/-- Witness for C5 at the unregistered location "nyc". -/
theorem get_weather_unknown_city_no_raise_witness :
    get_weather "nyc" = "I am not sure what the weather is in nyc" ∧
    (tool_node ⟨[Message.ai ""
      [⟨"call_1", "get_weather", [("location", "nyc")]⟩]]⟩).isOk = true := by
  have h := get_weather_unknown_city_no_raise "nyc" (by decide)
  exact ⟨h.1, h.2 ⟨[Message.ai ""
    [⟨"call_1", "get_weather", [("location", "nyc")]⟩]]⟩ ""
    [⟨"call_1", "get_weather", [("location", "nyc")]⟩] rfl (by decide)⟩

/-- C6: the loop state machine has exactly the transitions of the claim:
the entry point is "agent"; after "agent" the successor is "tools" exactly
when `should_continue` says "continue" and `END` exactly when it says
"end", and nothing else; after "tools" the successor is always "agent" and
never `END`. -/
theorem workflow_transitions_spec (s : AgentState) :
    workflow.entry = some "agent" ∧
    (workflow.successor "agent" s = some "tools" ↔
      should_continue s = some "continue") ∧
    (workflow.successor "agent" s = some END ↔
      should_continue s = some "end") ∧
    (∀ n, workflow.successor "agent" s = some n → n = "tools" ∨ n = END) ∧
    workflow.successor "tools" s = some "agent" ∧
    workflow.successor "tools" s ≠ some END := by
  refine ⟨rfl, ?_, ?_, ?_, successor_tools s, ?_⟩
  · rw [successor_agent]
    cases hsc : should_continue s with
    | none => simp
    | some l =>
      rw [Option.some_bind, lookup_routing]
      by_cases h1 : l = "continue"
      · subst h1
        simp
      · by_cases h2 : l = "end"
        · subst h2
          rw [if_neg (by decide), if_pos rfl]
          constructor
          · intro hh
            exact absurd (Option.some.inj hh) (by decide)
          · intro hh
            exact absurd (Option.some.inj hh) (by decide)
        · rw [if_neg h1, if_neg h2]
          constructor
          · intro hh
            simp at hh
          · intro hh
            exact absurd (Option.some.inj hh) h1
  · rw [successor_agent]
    cases hsc : should_continue s with
    | none => simp [END]
    | some l =>
      rw [Option.some_bind, lookup_routing]
      by_cases h1 : l = "continue"
      · subst h1
        rw [if_pos rfl]
        constructor
        · intro hh
          exact absurd (Option.some.inj hh) (by decide)
        · intro hh
          exact absurd (Option.some.inj hh) (by decide)
      · by_cases h2 : l = "end"
        · subst h2
          rw [if_neg (by decide), if_pos rfl]
          simp
        · rw [if_neg h1, if_neg h2]
          constructor
          · intro hh
            simp at hh
          · intro hh
            exact absurd (Option.some.inj hh) h2
  · intro n
    rw [successor_agent]
    cases hsc : should_continue s with
    | none => intro hh; simp at hh
    | some l =>
      rw [Option.some_bind, lookup_routing]
      by_cases h1 : l = "continue"
      · subst h1
        rw [if_pos rfl]
        intro hh
        exact Or.inl (Option.some.inj hh).symm
      · by_cases h2 : l = "end"
        · subst h2
          rw [if_neg (by decide), if_pos rfl]
          intro hh
          exact Or.inr (Option.some.inj hh).symm
        · rw [if_neg h1, if_neg h2]
          intro hh
          simp at hh
  · rw [successor_tools]
    intro hh
    exact absurd (Option.some.inj hh) (by decide)

/-- Witness for C6: the concrete routing decisions on states ending with and
without tool calls. -/
theorem workflow_transitions_spec_witness :
    workflow.successor "agent"
      ⟨[Message.ai "" [⟨"call_1", "get_weather", [("location", "sf")]⟩]]⟩ =
        some "tools" ∧
    workflow.successor "agent" ⟨[Message.ai "done" []]⟩ = some END :=
  ⟨(workflow_transitions_spec _).2.1.mpr (by decide),
   (workflow_transitions_spec _).2.2.1.mpr (by decide)⟩

/-- C7: `should_continue` is pure and deterministic: as a function of the
state it cannot mutate it, and its routing label depends only on the final
message. -/
theorem should_continue_pure_deterministic (s1 s2 : AgentState)
    (h : s1.messages.getLast? = s2.messages.getLast?) :
    should_continue s1 = should_continue s2 := by
  unfold should_continue
  rw [h]

/-- Witness for C7 on two distinct states sharing a final message. -/
theorem should_continue_pure_deterministic_witness :
    should_continue ⟨[Message.human "hi", Message.ai "ok" []]⟩ =
      should_continue ⟨[Message.ai "ok" []]⟩ :=
  should_continue_pure_deterministic _ _ rfl

/-- C8: in every configuration reachable by the loop, every tool-result
message of the state carries a call identifier matching a tool call of the
nearest preceding model-authored message. -/
theorem reachable_tool_ids_ok (client : ModelClient) (q : String)
    (cfg : String × AgentState) (h : Reachable client q cfg) :
    toolCallIdsOk [] cfg.2.messages = true :=
  (reachable_invariant h).1

/-- Witness for C8 on a two-step reachable run: the agent emits one call to
the weather tool, the tools node answers it, and the invariant holds for
the resulting three-message state. -/
theorem reachable_tool_ids_ok_witness :
    toolCallIdsOk []
      [Message.human "hi",
       Message.ai "" [⟨"call_1", "get_weather", [("location", "sf")]⟩],
       Message.tool (jsonDumpsString (get_weather "sf")) "get_weather" "call_1"] =
      true := by
  have h1 : Reachable
      (fun _ => ("", [⟨"call_1", "get_weather", [("location", "sf")]⟩])) "hi"
      ("agent", ⟨[Message.human "hi"]⟩) := Reachable.init
  have h2 := Reachable.agent_step _ "tools" h1 (by rfl)
  have h3 := Reachable.tools_step _
    ⟨[Message.tool (jsonDumpsString (get_weather "sf")) "get_weather" "call_1"]⟩
    "agent" h2 (by rfl) (by rfl)
  exact reachable_tool_ids_ok _ _ _ h3

/-- C9: invoked on a state whose final message carries zero tool calls,
`tool_node` does not fail: it returns a delta with an empty message list. -/
theorem tool_node_no_calls_ok (s : AgentState) (m : Message)
    (hlast : s.messages.getLast? = some m) (hno : m.tool_calls = []) :
    tool_node s = .ok ⟨[]⟩ := by
  rw [tool_node_eq hlast, hno]
  rfl

/-- Witness for C9 on a state ending in a model-authored message with no
tool calls. -/
theorem tool_node_no_calls_ok_witness :
    tool_node ⟨[Message.ai "done" []]⟩ = .ok ⟨[]⟩ :=
  tool_node_no_calls_ok _ (Message.ai "done" []) rfl rfl

/-- C10: every message of a delta produced by `tool_node` has as content the
json serialization of the capability's return value: the string result
wrapped in json double quotes with json escaping, never the raw string
itself. -/
theorem tool_node_content_json_dumps (s : AgentState) (m : Message) (out : AgentState)
    (hlast : s.messages.getLast? = some m) (hok : tool_node s = .ok out) :
    ∀ msg ∈ out.messages, ∃ tc ∈ m.tool_calls, ∃ t result,
      tools_by_name.lookup tc.name = some t ∧
      t.invoke tc.args = .ok result ∧
      msg = Message.tool (jsonDumpsString result) tc.name tc.id ∧
      jsonDumpsString result = "\"" ++ String.mk (jsonEscapeList result.data) ++ "\"" ∧
      jsonDumpsString result ≠ result := by
  have hrun := tool_node_ok_runToolCalls hlast hok
  intro msg hmsg
  obtain ⟨tc, htc, t, result, h1, h2, rfl⟩ := runToolCalls_ok_mem hrun msg hmsg
  exact ⟨tc, htc, t, result, h1, h2, rfl,
    jsonDumpsString_wrapped result, jsonDumpsString_ne result⟩

/-- Witness for C10: the concrete not-sure result appears quoted in the
result message's content. -/
theorem tool_node_content_json_dumps_witness :
    tool_node ⟨[Message.ai "" [⟨"call_1", "get_weather", [("location", "nyc")]⟩]]⟩ =
      Except.ok ⟨[Message.tool "\"I am not sure what the weather is in nyc\""
        "get_weather" "call_1"]⟩ ∧
    (∃ tc ∈ (Message.ai "" [⟨"call_1", "get_weather",
        [("location", "nyc")]⟩]).tool_calls,
      ∃ t result, tools_by_name.lookup tc.name = some t ∧
        t.invoke tc.args = .ok result ∧
        Message.tool "\"I am not sure what the weather is in nyc\""
            "get_weather" "call_1" =
          Message.tool (jsonDumpsString result) tc.name tc.id ∧
        jsonDumpsString result = "\"" ++ String.mk (jsonEscapeList result.data) ++ "\"" ∧
        jsonDumpsString result ≠ result) := by
  refine ⟨by decide, ?_⟩
  exact tool_node_content_json_dumps
    ⟨[Message.ai "" [⟨"call_1", "get_weather", [("location", "nyc")]⟩]]⟩
    (Message.ai "" [⟨"call_1", "get_weather", [("location", "nyc")]⟩])
    ⟨[Message.tool "\"I am not sure what the weather is in nyc\""
      "get_weather" "call_1"]⟩
    rfl (by decide)
    (Message.tool "\"I am not sure what the weather is in nyc\""
      "get_weather" "call_1")
    (by decide)

end ReactAgentLoop
